import Mathlib

/-!
Formal model of the Investment Portfolio Tracker's valuation pipeline.

Pure fragments of the frontend (src/frontend/src) are embedded directly:
the response dispatch of fetchPortfolioData and the remove-then-add edit
flow of editStockShares (App.js), and the row rendering of
PortfolioTable.js.  The backend (backend/app.py, alpha_vantage_api.py) is
not part of the source tree, so the Holdings Store, the Quote Provider
Adapter's result type and the Valuation Engine are modelled from the
specification (sections 3, 4.1, 4.3, 4.4, 6, 7).  Prices and share counts
are rationals; a JavaScript number-or-undefined field is an Option.
-/

namespace Portfolio

/-- A persisted position: ticker symbol plus share count (spec section 3, Holding). -/
structure Holding where
  ticker : String
  shares : ℚ
  deriving Repr, DecidableEq

/-- Lookback window for the historical reference price (spec section 3, Period). -/
inductive Period
  | d1 | w1 | m1 | m3 | m6 | y1
  deriving Repr, DecidableEq

/-- Transient per-request quote for one ticker (spec section 3, QuoteResult):
either price may be absent. -/
structure QuoteResult where
  ticker : String
  currentPrice : Option ℚ
  referencePrice : Option ℚ
  deriving Repr, DecidableEq

/-- One valued holding of a snapshot (spec section 3, ValuedPosition);
percentChange is absent for a degraded ticker. -/
structure ValuedPosition where
  ticker : String
  shares : ℚ
  currentPrice : ℚ
  value : ℚ
  percentChange : Option ℚ
  deriving Repr, DecidableEq

/-- The complete valued-portfolio result of one request (spec section 3,
PortfolioSnapshot). -/
structure PortfolioSnapshot where
  positions : List ValuedPosition
  warning : Option String
  deriving Repr, DecidableEq

/-- Errors of the backend error taxonomy (spec section 7) raised by the
Holdings Store and the add endpoint. -/
inductive StoreError
  | validationError (field : String)
  | notFoundError (t : String)
  deriving Repr, DecidableEq

/-- Hard failure of a valuation request (spec section 7, TotalOutage). -/
inductive ValuationError
  | totalOutage
  deriving Repr, DecidableEq

/-- Modelled from the spec: the Holdings Store list() contract (section 4.1);
backend/app.py is not in the source tree.  The persisted JSON document is the
list of holdings and list() returns it unchanged. -/
def listHoldings (file : List Holding) : List Holding := file

/-- Modelled from the spec: Holdings Store upsert (sections 4.1 and 6, POST
/api/portfolio); backend/app.py is not in the source tree.  Validation
failure (empty ticker or non-positive shares) leaves the persisted file
unchanged; otherwise a re-add with an existing ticker replaces that entry and
a new ticker is appended.  The second component is the persisted file after
the call: on success it is the new full holdings set, persisted before the
successful result is returned. -/
def upsert (file : List Holding) (ticker : String) (shares : ℚ) :
    Except StoreError (List Holding) × List Holding :=
  if ticker = "" then (.error (.validationError ("ticker")), file)
  else if shares ≤ 0 then (.error (.validationError ("shares")), file)
  else
    let newFile :=
      if file.any (fun h => h.ticker == ticker) then
        file.map (fun h => if h.ticker = ticker then ⟨ticker, shares⟩ else h)
      else file ++ [⟨ticker, shares⟩]
    (.ok newFile, newFile)

/-- Modelled from the spec: Holdings Store remove (sections 4.1 and 6, DELETE
/api/portfolio); backend/app.py is not in the source tree.  Removing an
absent ticker fails with NotFoundError and leaves the file unchanged. -/
def removeHolding (file : List Holding) (ticker : String) :
    Except StoreError (List Holding) × List Holding :=
  if file.any (fun h => h.ticker == ticker) then
    let newFile := file.filter (fun h => !(h.ticker == ticker))
    (.ok newFile, newFile)
  else (.error (.notFoundError ticker), file)

/-- Modelled from the spec: per-holding classification of the Valuation
Engine (section 4.3 step 3); backend/app.py is not in the source tree.
An absent currentPrice omits the holding entirely; an absent or zero
referencePrice keeps the holding but omits percentChange (the
division-by-zero guard of the numeric semantics in section 4.3). -/
def valuePosition (h : Holding) (q : QuoteResult) : Option ValuedPosition :=
  match q.currentPrice with
  | none => none
  | some c =>
      let pc : Option ℚ :=
        match q.referencePrice with
        | none => none
        | some r => if r = 0 then none else some ((c - r) / r)
      some ⟨h.ticker, h.shares, c, h.shares * c, pc⟩

/-- Comma-separated join used when synthesizing the aggregate warning. -/
def joinComma : List String → String
  | [] => ""
  | [t] => t
  | t :: ts => t ++ ", " ++ joinComma ts

/-- The warning string, w, names the ticker, t: t occurs verbatim inside w. -/
def mentions (w t : String) : Prop :=
  ∃ a b, w.data = a ++ t.data ++ b

/-- Tickers of holdings whose quote lookup produced no current price
(spec section 4.3 step 3, failed). -/
def failedTickers (period : Period) (holdings : List Holding)
    (quotes : String → Period → QuoteResult) : List String :=
  (holdings.filter (fun h => (quotes h.ticker period).currentPrice.isNone)).map
    (fun h => h.ticker)

/-- A quote with a current price but an absent or zero reference price
(spec section 4.3 step 3, degraded). -/
def isDegraded (q : QuoteResult) : Bool :=
  q.currentPrice.isSome &&
    (match q.referencePrice with
     | none => true
     | some r => decide (r = 0))

/-- Tickers of holdings priced successfully but missing a usable historical
baseline (spec section 4.3 step 3, degraded). -/
def degradedTickers (period : Period) (holdings : List Holding)
    (quotes : String → Period → QuoteResult) : List String :=
  (holdings.filter (fun h => isDegraded (quotes h.ticker period))).map
    (fun h => h.ticker)

/-- Modelled from the spec: the Valuation Engine contract valuate(period)
(section 4.3); backend/app.py is not in the source tree.  quotes gives the
adapter result of each per-ticker lookup of this request (after the fan-in
of section 5 all lookups have completed).  Empty holdings give an empty
snapshot; failed holdings are omitted; one aggregate warning names every
failed or degraded ticker; only a total outage (every ticker failed) is a
hard error. -/
def valuate (period : Period) (holdings : List Holding)
    (quotes : String → Period → QuoteResult) :
    Except ValuationError PortfolioSnapshot :=
  if holdings.isEmpty then .ok ⟨[], none⟩
  else
    let positions := holdings.filterMap (fun h => valuePosition h (quotes h.ticker period))
    if positions.isEmpty then .error .totalOutage
    else
      let affected := failedTickers period holdings quotes ++
        degradedTickers period holdings quotes
      let warning : Option String :=
        if affected.isEmpty then none
        else some ("no data for: " ++ joinComma affected)
      .ok ⟨positions, warning⟩

/-- Wire shape of a successful GET /api/portfolio/data body (spec section 6):
either the object carrying data plus an optional warning, or the legacy bare
array of positions. -/
inductive ApiResponse
  | objectShape (data : List ValuedPosition) (warning : Option String)
  | legacyArray (data : List ValuedPosition)
  deriving Repr, DecidableEq

/-- Modelled from the spec: the Snapshot Response Builder (sections 4.4
and 6); backend/app.py is not in the source tree.  A snapshot with a warning
is sent as the object shape; a snapshot with no degraded or failed ticker is
sent as the legacy bare array. -/
def buildResponse (s : PortfolioSnapshot) : ApiResponse :=
  match s.warning with
  | some w => .objectShape s.positions (some w)
  | none => .legacyArray s.positions

/-- Embeds the response dispatch of fetchPortfolioData
(src/frontend/src/App.js): a body whose data field is present is read as
positions plus warning; otherwise the body itself is the positions array and
the warning is cleared. -/
def clientDispatch : ApiResponse → List ValuedPosition × Option String
  | .objectShape d w => (d, w)
  | .legacyArray d => (d, none)

/-- A JavaScript runtime exception raised while rendering. -/
inductive JsError
  | typeError (msg : String)
  deriving Repr, DecidableEq

/-- Decimal rendering of a rational to two places, the shape JavaScript
toFixed(2) produces on the magnitudes this app displays. -/
def toFixed2 (x : ℚ) : String :=
  let sign := if x < 0 then "-" else ""
  let cents : ℤ := round (|x| * 100)
  let whole := cents / 100
  let frac := cents % 100
  sign ++ toString whole ++ "." ++ (if frac < 10 then "0" else "") ++ toString frac

/-- Embeds formatPercentChange of src/frontend/src/components/PortfolioTable.js.
The body computes a color and a sign from percentChange >= 0 (an undefined
operand compares as NaN, hence false) and then reads percentChange.toFixed(2)
unconditionally; a toFixed call on undefined raises TypeError.  The result on
a defined number is the (color, rendered text) pair of the span. -/
def formatPercentChange (percentChange : Option ℚ) : Except JsError (String × String) :=
  let nonneg := match percentChange with
    | some x => decide (0 ≤ x)
    | none => false
  let color := if nonneg then "green" else "red"
  let sign := if nonneg then "+" else ""
  match percentChange with
  | none => .error (.typeError ("percentChange.toFixed is not a function"))
  | some x => .ok (color, sign ++ toFixed2 x ++ "%")

/-- One rendered body row of the portfolio table. -/
structure Row where
  ticker : String
  sharesText : String
  priceText : String
  valueText : String
  changeColor : String
  changeText : String
  deriving Repr, DecidableEq

/-- Embeds one body row of PortfolioTable.js: the price, value and change
cells; the change cell calls formatPercentChange and therefore faults when
percentChange is undefined. -/
def renderRow (p : ValuedPosition) : Except JsError Row :=
  match formatPercentChange p.percentChange with
  | .error e => .error e
  | .ok fc => .ok ⟨p.ticker, toString p.shares, "$" ++ toFixed2 p.currentPrice,
      "$" ++ toFixed2 p.value, fc.1, fc.2⟩

/-- Insertion into a list kept in descending order of value. -/
def insertByValueDesc (p : ValuedPosition) : List ValuedPosition → List ValuedPosition
  | [] => [p]
  | q :: qs => if q.value < p.value then p :: q :: qs else q :: insertByValueDesc p qs

/-- Embeds the sortedPortfolio computation of PortfolioTable.js: the portfolio
sorted by descending value before display. -/
def sortByValueDesc (l : List ValuedPosition) : List ValuedPosition :=
  l.foldr insertByValueDesc []

/-- Sequential rendering of the rows; the first faulting row aborts the whole
render, as a thrown exception aborts a React render pass. -/
def renderRows : List ValuedPosition → Except JsError (List Row)
  | [] => .ok []
  | p :: ps =>
      match renderRow p with
      | .error e => .error e
      | .ok r =>
          match renderRows ps with
          | .error e => .error e
          | .ok rs => .ok (r :: rs)

/-- Embeds the table body of PortfolioTable.js
(src/frontend/src/components/PortfolioTable.js): sort by descending value,
then render every row. -/
def renderPortfolioTable (portfolio : List ValuedPosition) : Except JsError (List Row) :=
  renderRows (sortByValueDesc portfolio)

/-- Embeds editStockShares of src/frontend/src/App.js over the spec-modelled
backend endpoints: a DELETE of the ticker followed by a separate POST
re-adding it with the new share count, with no rollback when the POST fails.
postFails injects a transport failure of the POST request (the backend
unreachable after the DELETE); the catch block of editStockShares only sets
an error message and restores nothing.  The second component is the persisted
holdings file after the flow. -/
def editStockShares (file : List Holding) (ticker : String) (newShares : ℚ)
    (postFails : Bool) : Except StoreError Unit × List Holding :=
  match removeHolding file ticker with
  | (.error e, f) => (.error e, f)
  | (.ok _, f) =>
      if postFails then (.error (.validationError ("network")), f)
      else
        match upsert f ticker newShares with
        | (.error e, f2) => (.error e, f2)
        | (.ok _, f2) => (.ok (), f2)

/-! Helper lemmas about the engine's per-holding classification. -/

theorem valuePosition_isSome (h : Holding) (q : QuoteResult) :
    (valuePosition h q).isSome = q.currentPrice.isSome := by
  unfold valuePosition
  rcases hq : q.currentPrice with _ | c <;> simp [hq]

theorem valuePosition_eq_none (h : Holding) (q : QuoteResult) :
    valuePosition h q = none ↔ q.currentPrice = none := by
  unfold valuePosition
  rcases hq : q.currentPrice with _ | c <;> simp [hq]

theorem valuePosition_some_ticker {h : Holding} {q : QuoteResult} {p : ValuedPosition}
    (hp : valuePosition h q = some p) :
    p.ticker = h.ticker ∧ q.currentPrice.isSome := by
  unfold valuePosition at hp
  rcases hq : q.currentPrice with _ | c <;> rw [hq] at hp
  · cases hp
  · injection hp with hp
    subst hp
    exact ⟨rfl, by simp [hq]⟩

theorem length_filterMap_eq_countP {α β : Type} (f : α → Option β) (l : List α) :
    (l.filterMap f).length = l.countP (fun a => (f a).isSome) := by
  induction l with
  | nil => rfl
  | cons a t ih =>
      rcases hf : f a with _ | b <;>
        simp [List.filterMap_cons, hf, List.countP_cons, ih]

theorem countP_isSome_add_countP_isNone {α β : Type} (f : α → Option β) (l : List α) :
    l.countP (fun a => (f a).isSome) + l.countP (fun a => (f a).isNone) = l.length := by
  induction l with
  | nil => rfl
  | cons a t ih =>
      rcases hf : f a with _ | b <;> simp [List.countP_cons, hf] <;> omega

/-! Helper lemmas about the warning string. -/

theorem mentions_of_append_left {u w t : String} (h : mentions w t) :
    mentions (u ++ w) t := by
  obtain ⟨a, b, hab⟩ := h
  exact ⟨u.data ++ a, b, by simp [hab]⟩

theorem mentions_joinComma {t : String} :
    ∀ {l : List String}, t ∈ l → mentions (joinComma l) t := by
  intro l
  induction l with
  | nil => intro h; cases h
  | cons a l2 ih =>
      intro ht
      cases l2 with
      | nil =>
          rcases List.mem_singleton.mp ht with rfl
          exact ⟨[], [], by simp [joinComma]⟩
      | cons b bs =>
          rcases List.mem_cons.mp ht with rfl | hmem
          · exact ⟨[], (", " ++ joinComma (b :: bs)).data, by simp [joinComma]⟩
          · obtain ⟨x, y, hxy⟩ := ih hmem
            exact ⟨(a ++ ", ").data ++ x, y, by simp [joinComma, hxy]⟩

/-- C2: a holding whose quote has a referencePrice of exactly 0, or no
referencePrice at all, yields a ValuedPosition with percentChange omitted;
the computation is total, so no division is performed and no fault or
infinity is produced. -/
theorem c2_zero_or_absent_reference_omits_percentChange
    (h : Holding) (q : QuoteResult) (c : ℚ)
    (hc : q.currentPrice = some c)
    (hr : q.referencePrice = none ∨ q.referencePrice = some 0) :
    ∃ p, valuePosition h q = some p ∧ p.percentChange = none := by
  unfold valuePosition
  rw [hc]
  rcases hr with hr | hr <;> rw [hr] <;> exact ⟨_, rfl, by simp⟩

/-- Witness for C2 at a concrete degraded quote. -/
theorem c2_witness :
    ∃ p, valuePosition ⟨"AAPL", 10⟩ ⟨"AAPL", some 150, some 0⟩ = some p ∧
      p.percentChange = none :=
  c2_zero_or_absent_reference_omits_percentChange
    ⟨"AAPL", 10⟩ ⟨"AAPL", some 150, some 0⟩ 150 rfl (Or.inr rfl)

/-- C3: a holding with positive shares and a known positive current price is
valued at exactly shares times currentPrice (exact rational arithmetic, hence
within any 2-decimal rounding). -/
theorem c3_value_eq_shares_mul_price
    (h : Holding) (q : QuoteResult) (c : ℚ)
    (hs : 0 < h.shares) (hc : q.currentPrice = some c) (hp : 0 < c) :
    ∃ p, valuePosition h q = some p ∧ p.value = h.shares * c ∧
      p.ticker = h.ticker ∧ p.shares = h.shares ∧ p.currentPrice = c := by
  unfold valuePosition
  rw [hc]
  exact ⟨_, rfl, rfl, rfl, rfl, rfl⟩

/-- Witness for C3 at the spec's scenario quote (AAPL, 10 shares at 150). -/
theorem c3_witness :
    ∃ p, valuePosition ⟨"AAPL", 10⟩ ⟨"AAPL", some 150, some 140⟩ = some p ∧
      p.value = 10 * 150 ∧ p.ticker = "AAPL" ∧ p.shares = 10 ∧
      p.currentPrice = 150 := by
  have h := c3_value_eq_shares_mul_price ⟨"AAPL", 10⟩ ⟨"AAPL", some 150, some 140⟩
    150 (by decide) rfl (by decide)
  simpa using h

/-- C8: with both prices present and a nonzero reference price, percentChange
is the plain quotient (currentPrice - referencePrice) / referencePrice, not
pre-multiplied by 100. -/
theorem c8_percentChange_plain_quotient
    (h : Holding) (q : QuoteResult) (c r : ℚ)
    (hc : q.currentPrice = some c) (hr : q.referencePrice = some r)
    (h0 : ¬ r = 0) :
    ∃ p, valuePosition h q = some p ∧ p.percentChange = some ((c - r) / r) := by
  unfold valuePosition
  rw [hc, hr]
  exact ⟨_, rfl, by simp [h0]⟩

/-- Witness for C8 at the spec's scenario: current 150 against reference 140
gives 1/14 (about 0.0714), not 100/14 (about 7.14). -/
theorem c8_witness :
    (∃ p, valuePosition ⟨"AAPL", 10⟩ ⟨"AAPL", some 150, some 140⟩ = some p ∧
      p.percentChange = some ((150 - 140) / 140)) ∧
    ((150 - 140 : ℚ) / 140 = 1 / 14 ∧ (1 : ℚ) / 14 < 1) :=
  ⟨c8_percentChange_plain_quotient ⟨"AAPL", 10⟩ ⟨"AAPL", some 150, some 140⟩
      150 140 rfl rfl (by decide),
    by constructor <;> norm_num⟩

/-- C5: every successful response body is one of exactly two shapes, the
object with data plus warning or the legacy bare array (the latter exactly
when there is no warning, i.e. no degraded or failed ticker), and the
client dispatch of fetchPortfolioData recovers the snapshot's positions and
warning correctly from either shape. -/
theorem c5_response_shapes_and_client_dispatch (s : PortfolioSnapshot) :
    clientDispatch (buildResponse s) = (s.positions, s.warning) ∧
    buildResponse s =
      (if s.warning.isSome then ApiResponse.objectShape s.positions s.warning
       else ApiResponse.legacyArray s.positions) := by
  rcases hw : s.warning with _ | w <;>
    simp [buildResponse, clientDispatch, hw]

/-- C6 part 1 and 2: upsert with non-positive shares or an empty ticker fails
with ValidationError and leaves the persisted file unchanged; upsert with
valid inputs returns success with the new full holdings set persisted (the
persisted file equals the returned set). -/
theorem c6_upsert_validation_atomicity_persistence
    (file : List Holding) (t : String) (s : ℚ) :
    ((s ≤ 0 ∨ t = "") →
      ∃ field, upsert file t s = (.error (.validationError field), file)) ∧
    (0 < s → ¬ t = "" → ∃ nf, upsert file t s = (.ok nf, nf)) := by
  constructor
  · rintro (hs | ht)
    · by_cases ht : t = ""
      · exact ⟨"ticker", by simp [upsert, ht]⟩
      · exact ⟨"shares", by simp [upsert, ht, hs]⟩
    · exact ⟨"ticker", by simp [upsert, ht]⟩
  · intro hs ht
    unfold upsert
    rw [if_neg ht, if_neg (not_le.mpr hs)]
    exact ⟨_, rfl⟩

/-- C7: with a valid ticker and positive shares, upsert succeeds, the new
holding is in the persisted set, the ticker occurs exactly once, and ticker
uniqueness of the store is preserved — so re-adding an existing ticker
replaces rather than duplicates, and ticker stays a unique key under every
sequence of upserts. -/
theorem c7_upsert_ticker_unique_key
    (file : List Holding) (t : String) (s : ℚ)
    (hnd : (file.map (fun h => h.ticker)).Nodup)
    (hs : 0 < s) (ht : ¬ t = "") :
    ∃ nf, upsert file t s = (.ok nf, nf) ∧
      Holding.mk t s ∈ nf ∧
      nf.countP (fun h => h.ticker == t) = 1 ∧
      (nf.map (fun h => h.ticker)).Nodup := by
  have hs' := not_le.mpr hs
  by_cases hany : file.any (fun h => h.ticker == t) = true
  · have hrepl : upsert file t s =
        (.ok (file.map (fun h => if h.ticker = t then ⟨t, s⟩ else h)),
          file.map (fun h => if h.ticker = t then ⟨t, s⟩ else h)) := by
      unfold upsert
      rw [if_neg ht, if_neg hs']
      simp only [hany, if_true]
    obtain ⟨h0, hh0, hh0t⟩ := List.any_eq_true.mp hany
    have hh0t2 : h0.ticker = t := by simpa using hh0t
    have hmapt : (file.map (fun h => if h.ticker = t then (⟨t, s⟩ : Holding) else h)).map
        (fun h => h.ticker) = file.map (fun h => h.ticker) := by
      rw [List.map_map]
      refine List.map_congr_left ?_
      intro a ha
      by_cases hat : a.ticker = t <;> simp [Function.comp, hat]
    refine ⟨_, hrepl, ?_, ?_, ?_⟩
    · have hm := List.mem_map_of_mem
        (fun h => if h.ticker = t then (⟨t, s⟩ : Holding) else h) hh0
      simpa [hh0t2] using hm
    · rw [List.countP_map]
      have h1 : file.countP
          ((fun h => h.ticker == t) ∘ fun h => if h.ticker = t then (⟨t, s⟩ : Holding) else h)
          = file.countP (fun h => h.ticker == t) := by
        refine List.countP_congr ?_
        intro a ha
        by_cases hat : a.ticker = t <;> simp [Function.comp, hat]
      rw [h1]
      have hle : file.countP (fun h => h.ticker == t) ≤ 1 := by
        have hc := List.nodup_iff_count_le_one.mp hnd t
        have h2 : (file.map (fun h => h.ticker)).count t
            = file.countP (fun h => h.ticker == t) := by
          rw [List.count_eq_countP, List.countP_map]
          rfl
        omega
      have hge : 0 < file.countP (fun h => h.ticker == t) :=
        List.countP_pos_iff.mpr ⟨h0, hh0, hh0t⟩
      omega
    · rw [hmapt]; exact hnd
  · have happ : upsert file t s =
        (.ok (file ++ [⟨t, s⟩]), file ++ [⟨t, s⟩]) := by
      unfold upsert
      rw [if_neg ht, if_neg hs']
      simp only [if_neg hany]
    have hnotin : t ∉ file.map (fun h => h.ticker) := by
      intro hmem
      obtain ⟨a, ha, hat⟩ := List.mem_map.mp hmem
      exact hany (List.any_eq_true.mpr ⟨a, ha, by simp [hat]⟩)
    have hno : ∀ a ∈ file, ¬ (a.ticker == t) = true := by
      intro a ha hat
      exact hany (List.any_eq_true.mpr ⟨a, ha, hat⟩)
    refine ⟨_, happ, ?_, ?_, ?_⟩
    · simp
    · rw [List.countP_append, List.countP_eq_zero.mpr hno]
      simp [List.countP_cons]
    · rw [List.map_append]
      rw [List.nodup_append]
      refine ⟨hnd, by simp, ?_⟩
      intro x hx hx2
      simp only [List.map_cons, List.map_nil, List.mem_singleton] at hx2
      subst hx2
      exact hnotin hx

/-- Witness for C7: upserting AAPL with 10 shares into the empty store, then
upserting AAPL with 15 shares, each time leaves exactly one AAPL entry with
the latest share count. -/
theorem c7_witness :
    (∃ nf, upsert ([] : List Holding) "AAPL" 10 = (.ok nf, nf) ∧
      (⟨"AAPL", 10⟩ : Holding) ∈ nf ∧
      nf.countP (fun h => h.ticker == "AAPL") = 1 ∧
      (nf.map (fun h => h.ticker)).Nodup) ∧
    (∃ nf, upsert [(⟨"AAPL", 10⟩ : Holding)] "AAPL" 15 = (.ok nf, nf) ∧
      (⟨"AAPL", 15⟩ : Holding) ∈ nf ∧
      nf.countP (fun h => h.ticker == "AAPL") = 1 ∧
      (nf.map (fun h => h.ticker)).Nodup) :=
  ⟨c7_upsert_ticker_unique_key [] "AAPL" 10 (by decide) (by decide) (by decide),
    c7_upsert_ticker_unique_key [⟨"AAPL", 10⟩] "AAPL" 15
      (by decide) (by decide) (by decide)⟩

/-- C10: the edit flow is remove-then-add with no rollback.  When the DELETE
succeeds (ticker held) and the POST fails — transport failure or validation
failure of the new share count — the persisted store ends without the ticker
and the prior holding is not restored. -/
theorem c10_edit_delete_then_add_not_atomic
    (file : List Holding) (t : String) (s : ℚ) (postFails : Bool)
    (hmem : file.any (fun h => h.ticker == t) = true)
    (hfail : postFails = true ∨ s ≤ 0) :
    (∃ e, editStockShares file t s postFails =
      (.error e, file.filter (fun h => !(h.ticker == t)))) ∧
    ∀ h2 ∈ file.filter (fun h => !(h.ticker == t)), ¬ h2.ticker = t := by
  have hrm : removeHolding file t =
      (.ok (file.filter (fun h => !(h.ticker == t))),
        file.filter (fun h => !(h.ticker == t))) := by
    unfold removeHolding
    simp only [hmem, if_true]
  constructor
  · rcases hfail with hpf | hs
    · subst hpf
      exact ⟨.validationError ("network"), by simp [editStockShares, hrm]⟩
    · cases hpf : postFails with
      | true => exact ⟨.validationError ("network"), by simp [editStockShares, hrm]⟩
      | false =>
          by_cases hte : t = ""
          · subst hte
            exact ⟨.validationError ("ticker"),
              by simp [editStockShares, hrm, upsert]⟩
          · exact ⟨.validationError ("shares"),
              by simp [editStockShares, hrm, upsert, hte, hs]⟩
  · intro h2 hh2
    have hb := (List.mem_filter.mp hh2).2
    simpa using hb

/-- Witness for C10: with AAPL held and the POST failing, the edit leaves the
store without AAPL. -/
theorem c10_witness :
    (∃ e, editStockShares [(⟨"AAPL", 10⟩ : Holding)] "AAPL" 15 true =
      (.error e, List.filter (fun h => !(h.ticker == "AAPL"))
        [(⟨"AAPL", 10⟩ : Holding)])) ∧
    ∀ h2 ∈ List.filter (fun h => !(h.ticker == "AAPL"))
      [(⟨"AAPL", 10⟩ : Holding)], ¬ h2.ticker = "AAPL" :=
  c10_edit_delete_then_add_not_atomic [⟨"AAPL", 10⟩] "AAPL" 15 true
    (by decide) (Or.inl rfl)

/-! Helper lemmas about the table rendering. -/

theorem mem_insertByValueDesc_of (p a : ValuedPosition) (l : List ValuedPosition)
    (h : a = p ∨ a ∈ l) : a ∈ insertByValueDesc p l := by
  induction l with
  | nil =>
      rcases h with rfl | h2
      · simp [insertByValueDesc]
      · cases h2
  | cons q qs ih =>
      unfold insertByValueDesc
      by_cases hv : q.value < p.value
      · rw [if_pos hv]
        rcases h with rfl | h2
        · exact List.mem_cons_self _ _
        · exact List.mem_cons_of_mem _ h2
      · rw [if_neg hv]
        rcases h with rfl | h2
        · exact List.mem_cons_of_mem _ (ih (Or.inl rfl))
        · rcases List.mem_cons.mp h2 with rfl | h3
          · exact List.mem_cons_self _ _
          · exact List.mem_cons_of_mem _ (ih (Or.inr h3))

theorem mem_sortByValueDesc (a : ValuedPosition) (l : List ValuedPosition)
    (h : a ∈ l) : a ∈ sortByValueDesc l := by
  induction l with
  | nil => cases h
  | cons q qs ih =>
      show a ∈ insertByValueDesc q (sortByValueDesc qs)
      rcases List.mem_cons.mp h with rfl | h2
      · exact mem_insertByValueDesc_of _ _ _ (Or.inl rfl)
      · exact mem_insertByValueDesc_of _ _ _ (Or.inr (ih h2))

theorem renderRows_error (l : List ValuedPosition) (p : ValuedPosition)
    (hp : p ∈ l) (hn : p.percentChange = none) :
    ∃ msg, renderRows l = .error (.typeError msg) := by
  induction l with
  | nil => cases hp
  | cons q qs ih =>
      rcases hq : q.percentChange with _ | x
      · exact ⟨"percentChange.toFixed is not a function",
          by simp [renderRows, renderRow, formatPercentChange, hq]⟩
      · rcases List.mem_cons.mp hp with rfl | hmem
        · rw [hq] at hn; cases hn
        · obtain ⟨msg, hmsg⟩ := ih hmem
          exact ⟨msg,
            by simp [renderRows, renderRow, formatPercentChange, hq, hmsg]⟩

/-- C9: rendering PortfolioTable with any position whose percentChange is
absent raises TypeError, because formatPercentChange reads
percentChange.toFixed(2) unconditionally for every displayed row. -/
theorem c9_table_render_faults_on_absent_percentChange
    (portfolio : List ValuedPosition) (p : ValuedPosition)
    (hp : p ∈ portfolio) (hn : p.percentChange = none) :
    ∃ msg, renderPortfolioTable portfolio = .error (.typeError msg) :=
  renderRows_error _ p (mem_sortByValueDesc _ _ hp) hn

/-- Witness for C9: a single degraded position (no percentChange) makes the
table render fault. -/
theorem c9_witness :
    ∃ msg, renderPortfolioTable [⟨"MSFT", 5, 300, 1500, none⟩] =
      .error (.typeError msg) :=
  c9_table_render_faults_on_absent_percentChange _ ⟨"MSFT", 5, 300, 1500, none⟩
    (List.mem_singleton.mpr rfl) rfl

/-- Reduction of valuate on a non-empty holdings list. -/
theorem valuate_cons_eq (period : Period) (a : Holding) (as : List Holding)
    (quotes : String → Period → QuoteResult) :
    valuate period (a :: as) quotes =
      if ((a :: as).filterMap
          (fun h => valuePosition h (quotes h.ticker period))).isEmpty
      then .error .totalOutage
      else .ok ⟨(a :: as).filterMap
          (fun h => valuePosition h (quotes h.ticker period)),
        if (failedTickers period (a :: as) quotes ++
            degradedTickers period (a :: as) quotes).isEmpty
        then none
        else some ("no data for: " ++ joinComma
          (failedTickers period (a :: as) quotes ++
            degradedTickers period (a :: as) quotes))⟩ := rfl

/-- C4: a valuation request is the hard TotalOutage error exactly when the
holdings set is non-empty and every holding's quote lookup produced no
current price; in every other case the request returns a snapshot, so total
outage is the only hard-error condition. -/
theorem c4_hard_error_iff_total_outage
    (period : Period) (holdings : List Holding)
    (quotes : String → Period → QuoteResult) :
    valuate period holdings quotes = .error .totalOutage ↔
      (¬ holdings = [] ∧
        ∀ h ∈ holdings, (quotes h.ticker period).currentPrice = none) := by
  cases holdings with
  | nil => simp [valuate]
  | cons a as =>
      rw [valuate_cons_eq]
      by_cases hp : ((a :: as).filterMap
          (fun h => valuePosition h (quotes h.ticker period))).isEmpty = true
      · rw [if_pos hp]
        constructor
        · intro _
          refine ⟨by simp, ?_⟩
          intro h hh
          exact (valuePosition_eq_none h _).mp
            (List.filterMap_eq_nil_iff.mp (List.isEmpty_iff.mp hp) h hh)
        · intro _
          rfl
      · rw [if_neg hp]
        constructor
        · intro hv
          cases hv
        · rintro ⟨-, hall⟩
          exact absurd (List.isEmpty_iff.mpr (List.filterMap_eq_nil_iff.mpr
            (fun h hh => (valuePosition_eq_none h _).mpr (hall h hh)))) hp

/-- C1: with more than one holding and exactly one holding whose quote lookup
yields no current price, valuate returns a snapshot (no error) with one
position per surviving holding (the failed one omitted) and a warning string
mentioning the failed ticker. -/
theorem c1_single_failure_degraded_snapshot
    (period : Period) (holdings : List Holding)
    (quotes : String → Period → QuoteResult)
    (hlen : 1 < holdings.length)
    (hone : holdings.countP
      (fun h => ((quotes h.ticker period).currentPrice).isNone) = 1) :
    ∃ s w, valuate period holdings quotes = .ok s ∧
      s.positions.length = holdings.length - 1 ∧
      s.warning = some w ∧
      (∀ h ∈ holdings, (quotes h.ticker period).currentPrice = none →
        mentions w h.ticker) ∧
      (∀ p ∈ s.positions, ((quotes p.ticker period).currentPrice).isSome) := by
  obtain ⟨a, as, rfl⟩ : ∃ a as, holdings = a :: as := by
    cases holdings with
    | nil => simp at hlen
    | cons a as => exact ⟨a, as, rfl⟩
  have hadd : (a :: as).countP
        (fun h => ((quotes h.ticker period).currentPrice).isSome)
      + (a :: as).countP
        (fun h => ((quotes h.ticker period).currentPrice).isNone)
      = (a :: as).length :=
    countP_isSome_add_countP_isNone _ _
  have hplen : ((a :: as).filterMap
      (fun h => valuePosition h (quotes h.ticker period))).length
      = (a :: as).length - 1 := by
    rw [length_filterMap_eq_countP]
    have hc : (a :: as).countP
        (fun h => (valuePosition h (quotes h.ticker period)).isSome)
        = (a :: as).countP
          (fun h => ((quotes h.ticker period).currentPrice).isSome) := by
      refine List.countP_congr ?_
      intro x hx
      simp [valuePosition_isSome]
    rw [hc]
    omega
  have hpne : ¬ ((a :: as).filterMap
      (fun h => valuePosition h (quotes h.ticker period))).isEmpty = true := by
    intro hemp
    rw [List.isEmpty_iff] at hemp
    rw [hemp] at hplen
    simp only [List.length_nil] at hplen
    have hlen2 : (a :: as).length = 1 := by omega
    rw [hlen2] at hlen
    exact absurd hlen (by omega)
  have hmem_failed : ∀ h ∈ a :: as,
      (quotes h.ticker period).currentPrice = none →
      h.ticker ∈ failedTickers period (a :: as) quotes := by
    intro h hh hn
    exact List.mem_map_of_mem _ (List.mem_filter.mpr ⟨hh, by simp [hn]⟩)
  obtain ⟨h0, hh0, hh0n⟩ : ∃ h0 ∈ a :: as,
      ((quotes h0.ticker period).currentPrice).isNone = true :=
    List.countP_pos_iff.mp (by omega)
  have hh0none : (quotes h0.ticker period).currentPrice = none :=
    Option.isNone_iff_eq_none.mp hh0n
  have haff_ne : ¬ (failedTickers period (a :: as) quotes ++
      degradedTickers period (a :: as) quotes).isEmpty = true := by
    intro hemp
    rw [List.isEmpty_iff] at hemp
    have hm := List.mem_append_left (degradedTickers period (a :: as) quotes)
      (hmem_failed h0 hh0 hh0none)
    rw [hemp] at hm
    cases hm
  have hval : valuate period (a :: as) quotes =
      .ok ⟨(a :: as).filterMap
          (fun h => valuePosition h (quotes h.ticker period)),
        some ("no data for: " ++ joinComma
          (failedTickers period (a :: as) quotes ++
            degradedTickers period (a :: as) quotes))⟩ := by
    rw [valuate_cons_eq, if_neg hpne, if_neg haff_ne]
  refine ⟨_, _, hval, hplen, rfl, ?_, ?_⟩
  · intro h hh hn
    exact mentions_of_append_left
      (mentions_joinComma (List.mem_append_left _ (hmem_failed h hh hn)))
  · intro p hp
    obtain ⟨h, hh, hvp⟩ := List.mem_filterMap.mp hp
    obtain ⟨hpt, hsome⟩ := valuePosition_some_ticker hvp
    rw [hpt]
    exact hsome

/-- Witness for C1 at the spec's scenario: AAPL and MSFT held, the MSFT quote
has no current price, so the snapshot keeps one position and the warning
mentions MSFT. -/
theorem c1_witness :
    ∃ s w, valuate Period.m1 [⟨"AAPL", 10⟩, ⟨"MSFT", 5⟩]
        (fun t _ => if t = "AAPL" then ⟨"AAPL", some 150, some 140⟩
          else ⟨t, none, none⟩) = .ok s ∧
      s.positions.length = 1 ∧
      s.warning = some w ∧
      mentions w "MSFT" := by
  have h := c1_single_failure_degraded_snapshot Period.m1
    [⟨"AAPL", 10⟩, ⟨"MSFT", 5⟩]
    (fun t _ => if t = "AAPL" then ⟨"AAPL", some 150, some 140⟩
      else ⟨t, none, none⟩)
    (by decide) (by decide)
  obtain ⟨s, w, hok, hl, hw, hm, -⟩ := h
  exact ⟨s, w, hok, hl, hw, hm ⟨"MSFT", 5⟩ (by decide) (by decide)⟩

/-- Witness for C4: both holdings fail, so the request is a hard error. -/
theorem c4_witness :
    valuate Period.m1 [⟨"AAPL", 10⟩, ⟨"MSFT", 5⟩]
      (fun t _ => ⟨t, none, none⟩) = .error .totalOutage :=
  (c4_hard_error_iff_total_outage Period.m1 [⟨"AAPL", 10⟩, ⟨"MSFT", 5⟩]
    (fun t _ => ⟨t, none, none⟩)).mpr
    ⟨by decide, by intro h hh; rfl⟩

/-- Witness for C6: a negative-shares upsert on the empty store errors and
leaves the file empty; a valid upsert succeeds with the set persisted. -/
theorem c6_witness :
    (∃ field, upsert ([] : List Holding) "AAPL" (-1) =
      (.error (.validationError field), [])) ∧
    (∃ nf, upsert ([] : List Holding) "AAPL" 10 = (.ok nf, nf)) :=
  ⟨(c6_upsert_validation_atomicity_persistence [] "AAPL" (-1)).1
      (Or.inl (by decide)),
    (c6_upsert_validation_atomicity_persistence [] "AAPL" 10).2
      (by decide) (by decide)⟩
